import Mathlib

/-!
# Verification of the Document Composition & Pagination Engine

Shallow embedding of `src/app/services/template_engine.py` (the template
composition engine of titan4title) and proofs of the specification claims
about it.

Modelling conventions:
* Python `str` is modelled as `List Char` (`Str` below); Python `float`
  geometry values are modelled as `ℚ` (exact arithmetic).
* The external text-metrics provider (`_measure_text`, backed by
  ReportLab's `pdfmetrics.stringWidth` with fallback to Helvetica) is an
  abstract total function `Measure : Str → Str → ℚ → ℚ`
  (text, font, size ↦ width).  The source's try/except fallback is inside
  that abstraction: `stringWidth` with the Helvetica fallback never raises.
* The external XPath engine (lxml) is an abstract oracle returning the
  lxml result type: either an evaluation error, or a list of items (each
  an element node or a "smart string" — lxml returns text nodes,
  attribute values and `string()`/`count()` scalars as plain Python
  values, so a node-set such as `/r/node()` can mix element and string
  items), or a bare element, or a scalar.  Scalars are modelled after
  Python's `str()` coercion, i.e. as strings.
* Python dict `.get(key, default)` accesses are modelled by `Option`
  fields plus `Option.getD`; dict/str/number truthiness is modelled
  explicitly at each use site.
-/

namespace TemplateEngine

/-- Python strings, modelled as lists of characters. -/
abbrev Str := List Char

/-- The abstract text-metrics provider: `measure text font size` is the
rendered width of `text` (source: `_measure_text`, which delegates to
ReportLab and falls back to Helvetica metrics on error, hence total). -/
abbrev Measure := Str → Str → ℚ → ℚ

/-- The whitespace characters Python's `str.split()` splits on that can
still occur in a paragraph (the source removes `\r` and splits on `\n`
before word-splitting). -/
def pyIsSpace (c : Char) : Bool :=
  c = ' ' || c = '\t' || c = Char.ofNat 11 || c = Char.ofNat 12

/-- Split a string at every character satisfying `p`, keeping empty
pieces (the behaviour of Python's `str.split(sep)` for a single-char
separator when `p` matches exactly that separator). -/
def splitPred (p : Char → Bool) : Str → Str → List Str
  | acc, [] => [acc.reverse]
  | acc, x :: xs => if p x then acc.reverse :: splitPred p [] xs else splitPred p (x :: acc) xs

/-- Python `s.split("\n")`. -/
def splitNewline (s : Str) : List Str := splitPred (fun c => c = '\n') [] s

/-- Python `s.split()` (no argument): split on whitespace runs and drop
empty pieces. -/
def pySplit (s : Str) : List Str :=
  (splitPred pyIsSpace [] s).filter (fun w => w ≠ [])

/-- Source `_find_split_index`, inner loop: `for idx in range(len(word)-1, 1, -1)`
counting `idx` down from `word.length - 1` to `2`; on exhaustion the
function returns `max(1, len(word) - 1)`. -/
def findSplitIdxAux (M : Measure) (word : Str) (width : ℚ) (font : Str) (size : ℚ) :
    ℕ → ℕ
  | 0 => max 1 (word.length - 1)
  | 1 => max 1 (word.length - 1)
  | idx + 2 =>
    if M (word.take (idx + 2) ++ ['-']) font size ≤ width then idx + 2
    else findSplitIdxAux M word width font size (idx + 1)

/-- Source `_find_split_index(word, width, font, size)`. -/
def findSplitIndex (M : Measure) (word : Str) (width : ℚ) (font : Str) (size : ℚ) : ℕ :=
  findSplitIdxAux M word width font size (word.length - 1)

/-- Source `_split_long_word`, the `while` loop: while the remainder is
wider than `width` and longer than one character, cut it at
`_find_split_index` and emit the prefix plus a hyphen.  The loop is
compiled with a structural fuel counter so that it evaluates in the
kernel; each iteration strictly shortens the remainder (the split index
is at least 1), so `remainder.length` fuel always suffices, and with the
fuel exhausted the guard `1 < remainder.length` is false anyway. -/
def splitLongWordFuel (M : Measure) (width : ℚ) (font : Str) (size : ℚ) :
    ℕ → Str → List Str
  | 0, remainder => [remainder]
  | fuel + 1, remainder =>
    if width < M remainder font size ∧ 1 < remainder.length then
      (remainder.take (findSplitIndex M remainder width font size) ++ ['-']) ::
        splitLongWordFuel M width font size fuel
          (remainder.drop (findSplitIndex M remainder width font size))
    else [remainder]

/-- The `_split_long_word` loop started with adequate fuel. -/
def splitLongWordAux (M : Measure) (width : ℚ) (font : Str) (size : ℚ)
    (remainder : Str) : List Str :=
  splitLongWordFuel M width font size remainder.length remainder

/-- Source `_split_long_word(word, width, font, size, hyphenate)`. -/
def splitLongWord (M : Measure) (word : Str) (width : ℚ) (font : Str) (size : ℚ)
    (hyphenate : Bool) : List Str :=
  if !hyphenate || word = [] then [word]
  else splitLongWordAux M width font size word

/-- `candidate = f"{current} {next_word}" if current else next_word`. -/
def pyCandidate (current next : Str) : Str :=
  if current ≠ [] then current ++ [' '] ++ next else next

/-- Source `wrap_text`, inner `while words:` loop over the remaining
words of one paragraph, with `current` the line being packed. -/
def wrapWords (M : Measure) (width : ℚ) (font : Str) (size : ℚ) (hyphenate : Bool) :
    Str → List Str → List Str
  | current, [] =>
    -- final word handling for the paragraph
    if M current font size ≤ width then [current]
    else splitLongWord M current width font size hyphenate
  | current, next :: rest =>
    if M (pyCandidate current next) font size ≤ width then
      wrapWords M width font size hyphenate (pyCandidate current next) rest
    else if current = [] then
      let segs := splitLongWord M next width font size hyphenate
      segs.dropLast ++ wrapWords M width font size hyphenate (segs.getLastD []) rest
    else
      current :: wrapWords M width font size hyphenate next rest

/-- Source `wrap_text(text, width, font, size, hyphenate=True)`. -/
def wrapText (M : Measure) (text : Str) (width : ℚ) (font : Str) (size : ℚ)
    (hyphenate : Bool) : List Str :=
  let paragraphs := splitNewline (text.filter (fun c => c ≠ '\r'))
  let paragraphs := if paragraphs = [] then [[]] else paragraphs
  paragraphs.flatMap (fun para =>
    match pySplit para with
    | [] => [[]]
    | w :: rest => wrapWords M width font size hyphenate w rest)

/-- The literal `"..."`. -/
def dots : Str := ['.', '.', '.']

/-- Source `apply_ellipsis`, the `while` loop: strip the last character
while the line is non-empty and `line + "..."` is wider than `width`. -/
def ellipsisShrinkFuel (M : Measure) (width : ℚ) (font : Str) (size : ℚ) :
    ℕ → Str → Str
  | 0, line => line
  | fuel + 1, line =>
    if line ≠ [] ∧ width < M (line ++ dots) font size then
      ellipsisShrinkFuel M width font size fuel line.dropLast
    else line

/-- The `apply_ellipsis` loop started with adequate fuel (each iteration
drops one character, and with fuel exhausted the line is empty and the
guard is false anyway). -/
def ellipsisShrink (M : Measure) (width : ℚ) (font : Str) (size : ℚ) (line : Str) : Str :=
  ellipsisShrinkFuel M width font size line.length line

/-- Source `apply_ellipsis(line, width, font, size)`. -/
def applyEllipsis (M : Measure) (line : Str) (width : ℚ) (font : Str) (size : ℚ) : Str :=
  if line = [] then dots
  else
    let l := ellipsisShrink M width font size line
    if l = [] then dots else l ++ dots

/-- Python's built-in `round` (banker's rounding, half to even) on an
exact rational. -/
def pythonRound (q : ℚ) : ℤ :=
  if q - (q.floor : ℚ) < 1/2 then q.floor
  else if (1 : ℚ)/2 < q - (q.floor : ℚ) then q.floor + 1
  else if q.floor % 2 = 0 then q.floor else q.floor + 1

/-- Python's `int()` applied to a float: truncation toward zero.
(`Rat.floor` is the kernel-computable floor on `ℚ`.) -/
def pyInt (q : ℚ) : ℤ := if 0 ≤ q then q.floor else -(-q).floor

/-- Source `BaselineGrid` dataclass. -/
structure BaselineGrid where
  leading : ℚ
  offset : ℚ
deriving Repr, DecidableEq

/-- Source `BaselineGrid.align`. -/
def BaselineGrid.align (g : BaselineGrid) (baseline : ℚ) : ℚ :=
  if g.leading ≤ 0 then baseline
  else if baseline ≤ g.offset then g.offset
  else g.offset + (pythonRound ((baseline - g.offset) / g.leading) : ℚ) * g.leading

/-- An lxml element node: `id` models object identity, `text` models the
`.text` attribute (which Python may report as `None`). -/
structure Elem where
  id : ℕ
  text : Option Str
deriving Repr, DecidableEq

/-- One item of an lxml XPath node-set result: an element node, or a
"smart string" (lxml returns text nodes, attribute values, etc. as
`str` values inside the list). -/
inductive XItem where
  | elem (e : Elem)
  | smart (s : Str)
deriving Repr, DecidableEq

/-- The value an lxml `xpath()` call can produce: a list of items, a bare
element, or a scalar (string/float/bool — modelled after `str()`
coercion, which is how the engine consumes scalars). -/
inductive XResult where
  | list (items : List XItem)
  | single (e : Elem)
  | scalar (s : Str)
deriving Repr, DecidableEq

/-- Outcome of an lxml `xpath()` call: an evaluation error (unparseable
expression and the like) or a result value. -/
inductive XOutcome where
  | raise
  | ok (r : XResult)
deriving Repr, DecidableEq

/-- The oracle for `self.root.xpath(expr)` of `XPathBinder`. -/
abbrev XPath := Str → XOutcome

/-- The oracle for `row_node.xpath(expr)` in the table paginator. -/
abbrev NodeXPath := Elem → Str → XOutcome

/-- Source `eval_string`'s `"".join((node.text or "") for node in result)`:
reading `.text` off a non-element item raises `AttributeError`. -/
def joinElemTexts : List XItem → Except Unit Str
  | [] => .ok []
  | .elem e :: rest => (joinElemTexts rest).map (fun t => e.text.getD [] ++ t)
  | .smart _ :: _ => .error ()

/-- Source `XPathBinder.eval_string`.  The `try/except` only wraps the
`xpath()` call itself; the join over a node-set whose first item is an
element is outside it and can raise (modelled as `.error`). -/
def evalString (xp : XPath) (expr : Str) : Except Unit Str :=
  if expr = [] then .ok []
  else
    match xp expr with
    | .raise => .ok []
    | .ok (.list []) => .ok []
    | .ok (.list (.elem e :: xs)) => joinElemTexts (.elem e :: xs)
    | .ok (.list (.smart s :: _)) => .ok s
    | .ok (.single e) => .ok (e.text.getD [])
    | .ok (.scalar s) => .ok s

/-- Source `XPathBinder.eval_nodes`. -/
def evalNodes (xp : XPath) (expr : Str) : List Elem :=
  if expr = [] then []
  else
    match xp expr with
    | .raise => []
    | .ok (.list items) =>
      items.filterMap (fun it => match it with | .elem e => some e | .smart _ => none)
    | .ok (.single e) => [e]
    | .ok (.scalar _) => []

/-- A primitive draw operation (the op dicts of the source).  `width`,
`tabLeader` and `leaderTargetX` on a text op are `none` when the source
dict omits the corresponding key. -/
inductive Op where
  | text (text : Str) (x y : ℚ) (font : Str) (size : ℚ) (align : Str)
      (width : Option ℚ) (tabLeader : Option Str) (leaderTargetX : Option ℚ)
  | image (path : Str) (x y width height : ℚ)
  | line (x1 y1 x2 y2 width : ℚ)
deriving Repr, DecidableEq

/-- The `margins` dict handed to `LayoutContext` (`.get` defaults 36). -/
structure MarginsConf where
  l : Option ℚ
  r : Option ℚ
  t : Option ℚ
  b : Option ℚ
deriving Repr, DecidableEq

/-- Source `LayoutContext` state. -/
structure Ctx where
  pageWidth : ℚ
  pageHeight : ℚ
  marginL : ℚ
  marginR : ℚ
  marginT : ℚ
  marginB : ℚ
  grid : Option BaselineGrid
  pages : List (List Op)
deriving Repr, DecidableEq

/-- Source `LayoutContext.__init__`: margins default to 36, the page list
starts with exactly one empty page. -/
def Ctx.init (pageWidth pageHeight : ℚ) (margins : MarginsConf)
    (grid : Option BaselineGrid) : Ctx :=
  { pageWidth, pageHeight
    marginL := margins.l.getD 36, marginR := margins.r.getD 36
    marginT := margins.t.getD 36, marginB := margins.b.getD 36
    grid, pages := [[]] }

/-- Source `LayoutContext.new_page`. -/
def Ctx.newPage (c : Ctx) : Ctx := { c with pages := c.pages ++ [[]] }

/-- Source `LayoutContext.current_page` (`self.pages[-1]`; the page list
is never empty in any reachable state). -/
def Ctx.curPage (c : Ctx) : List Op := c.pages.getLastD []

/-- Source `LayoutContext.add_op`: append to the current (last) page. -/
def Ctx.addOp (c : Ctx) (op : Op) : Ctx :=
  { c with pages := c.pages.dropLast ++ [c.curPage ++ [op]] }

/-- Source `LayoutContext.tl_to_canvas`. -/
def Ctx.tlToCanvas (c : Ctx) (x y : ℚ) : ℚ × ℚ := (x, c.pageHeight - y)

/-- Source `LayoutContext.baseline_to_canvas`. -/
def Ctx.baselineToCanvas (c : Ctx) (baselineFromTop : ℚ) : ℚ :=
  c.pageHeight - (match c.grid with
    | some g => g.align baselineFromTop
    | none => baselineFromTop)

/-- Source `LayoutContext.bottom_limit`. -/
def Ctx.bottomLimit (c : Ctx) : ℚ := c.pageHeight - c.marginB

/-- Truthiness of an optional numeric dict entry: `not value` is true in
Python exactly for a missing key (`None`) or a zero value. -/
def qFalsy (o : Option ℚ) : Bool := o = none || o = some 0

/-- Fields read by `_compose_text_line` and its dispatch (StaticText and
DynamicText elements). -/
structure TextLineE where
  font : Option Str
  size : Option ℚ
  align : Option Str
  x : Option ℚ
  y : Option ℚ
  maxWidth : Option ℚ
  tabLeader : Option Str
  leaderTargetX : Option ℚ
  text : Option Str
  binding : Option Str
deriving Repr, DecidableEq

/-- Fields read by `_compose_text_box` and its dispatch. -/
structure TextBoxE where
  font : Option Str
  size : Option ℚ
  leading : Option ℚ
  hyphenate : Option Bool
  align : Option Str
  ellipsis : Option Bool
  width : Option ℚ
  height : Option ℚ
  paddingTop : Option ℚ
  paddingLeft : Option ℚ
  paddingRight : Option ℚ
  x : Option ℚ
  y : Option ℚ
  text : Option Str
  binding : Option Str
deriving Repr, DecidableEq

/-- Fields read by `_compose_image`. -/
structure ImageE where
  path : Option Str
  width : Option ℚ
  height : Option ℚ
  x : Option ℚ
  y : Option ℚ
deriving Repr, DecidableEq

/-- Fields read by `_compose_rule`. -/
structure RuleE where
  x1 : Option ℚ
  y1 : Option ℚ
  x2 : Option ℚ
  y2 : Option ℚ
  width : Option ℚ
deriving Repr, DecidableEq

/-- One column dict of a RepeatingTable. -/
structure ColumnE where
  header : Option Str
  binding : Option Str
  width : Option ℚ
  align : Option Str
deriving Repr, DecidableEq

/-- The `padding` dict of a RepeatingTable (`.get` defaults 2). -/
structure PaddingConf where
  top : Option ℚ
  bottom : Option ℚ
  left : Option ℚ
  right : Option ℚ
deriving Repr, DecidableEq

/-- Fields read by `_compose_repeating_table`. -/
structure TableE where
  binding : Option Str
  x : Option ℚ
  y : Option ℚ
  padding : PaddingConf
  headerFont : Option Str
  headerSize : Option ℚ
  headerLeading : Option ℚ
  rowFont : Option Str
  rowSize : Option ℚ
  rowLeading : Option ℚ
  headerGap : Option ℚ
  columns : List ColumnE
deriving Repr, DecidableEq

/-- A template element.  The source dispatches on the `"type"` string and
silently ignores any unrecognized value; `other` models an element whose
`"type"` is none of the six known tags. -/
inductive Element where
  | staticText (e : TextLineE)
  | dynamicText (e : TextLineE)
  | textBox (e : TextBoxE)
  | image (e : ImageE)
  | rule (e : RuleE)
  | repeatingTable (e : TableE)
  | other (etype : Option Str)
deriving Repr, DecidableEq

/-- Source `ElementComposer._compose_text_line`. -/
def composeTextLine (M : Measure) (ctx : Ctx) (e : TextLineE) (text : Str) : Ctx :=
  let font := e.font.getD "Helvetica".data
  let size := e.size.getD 10
  let align := e.align.getD "left".data
  let x := e.x.getD ctx.marginL
  let y := e.y.getD ctx.marginT
  let text :=
    match e.maxWidth with
    | some mw => if 0 < mw ∧ mw < M text font size then applyEllipsis M text mw font size else text
    | none => text
  let cxy := ctx.tlToCanvas x y
  let tab := match e.tabLeader with
    | some t => if t ≠ [] then some t else none
    | none => none
  ctx.addOp (.text text cxy.1 cxy.2 font size align e.maxWidth tab
    (if tab.isSome then e.leaderTargetX else none))

/-- Source `ElementComposer._compose_text_box` (on the already-resolved
text), returning the context together with the list of ops it emitted
(the emitted list is specification instrumentation; the context part is
the source behaviour). -/
def composeTextBoxT (M : Measure) (ctx : Ctx) (e : TextBoxE) (text : Str) :
    Ctx × List Op :=
  let font := e.font.getD "Helvetica".data
  let size := e.size.getD 10
  let leading := e.leading.getD (size * (12/10))
  let hyphenate := e.hyphenate.getD true
  let align := e.align.getD "left".data
  let ellipsis := e.ellipsis.getD true
  if qFalsy e.width || qFalsy e.height then (ctx, [])
  else
    let width := e.width.getD 0
    let height := e.height.getD 0
    let paddingTop := e.paddingTop.getD 0
    let paddingLeft := e.paddingLeft.getD 0
    let paddingRight := e.paddingRight.getD 0
    let effectiveWidth := max 0 (width - (paddingLeft + paddingRight))
    let wrappedLines := wrapText M text effectiveWidth font size hyphenate
    let maxLines : ℤ := max 1 (pyInt ((height - paddingTop) / leading))
    let wrappedLines :=
      if maxLines < (wrappedLines.length : ℤ) then
        let truncated := wrappedLines.take maxLines.toNat
        if ellipsis ∧ truncated ≠ [] then
          truncated.dropLast ++
            [applyEllipsis M (truncated.getLastD []) effectiveWidth font size]
        else truncated
      else wrappedLines
    let baseTop := e.y.getD ctx.marginT + paddingTop + size
    let xBase := e.x.getD ctx.marginL + paddingLeft
    let ops := wrappedLines.enum.map (fun il =>
      Op.text il.2 xBase (ctx.baselineToCanvas (baseTop + (il.1 : ℚ) * leading))
        font size align (some effectiveWidth) none none)
    (ops.foldl Ctx.addOp ctx, ops)

/-- Source `ElementComposer._compose_image`. -/
def composeImage (ctx : Ctx) (e : ImageE) : Ctx :=
  match e.path with
  | none => ctx
  | some p =>
    if p = [] then ctx
    else if qFalsy e.width || qFalsy e.height then ctx
    else
      let width := e.width.getD 0
      let height := e.height.getD 0
      let x := e.x.getD ctx.marginL
      let y := e.y.getD ctx.marginT
      let cxy := ctx.tlToCanvas x (y + height)
      ctx.addOp (.image p cxy.1 cxy.2 width height)

/-- Source `ElementComposer._compose_rule`. -/
def composeRule (ctx : Ctx) (e : RuleE) : Ctx :=
  let p1 := ctx.tlToCanvas (e.x1.getD 0) (e.y1.getD 0)
  let p2 := ctx.tlToCanvas (e.x2.getD 0) (e.y2.getD 0)
  ctx.addOp (.line p1.1 p1.2 p2.1 p2.2 (e.width.getD (1/2)))

/-- The locals of `_compose_repeating_table` shared by `render_header`
and `render_row`. -/
structure TableParams where
  xOrigin : ℚ
  yOrigin : ℚ
  paddingTop : ℚ
  paddingBottom : ℚ
  paddingLeft : ℚ
  paddingRight : ℚ
  headerFont : Str
  headerSize : ℚ
  headerLeading : ℚ
  rowFont : Str
  rowSize : ℚ
  rowLeading : ℚ
  headerGap : ℚ
  columns : List ColumnE
deriving Repr, DecidableEq

/-- `column_widths = [col.get("width", 60) for col in columns]`. -/
def TableParams.columnWidths (p : TableParams) : List ℚ :=
  p.columns.map (fun c => c.width.getD 60)

/-- `col_aligns = [col.get("align", "left") for col in columns]`. -/
def TableParams.colAligns (p : TableParams) : List Str :=
  p.columns.map (fun c => c.align.getD "left".data)

/-- `col_bindings = [col.get("binding") for col in columns]`. -/
def TableParams.colBindings (p : TableParams) : List (Option Str) :=
  p.columns.map (fun c => c.binding)

/-- The locals computed at the top of `_compose_repeating_table`. -/
def mkTableParams (ctx : Ctx) (e : TableE) : TableParams :=
  let headerSize := e.headerSize.getD 9
  let rowSize := e.rowSize.getD 9
  let rowLeading := e.rowLeading.getD (rowSize * (12/10))
  { xOrigin := e.x.getD ctx.marginL
    yOrigin := e.y.getD ctx.marginT
    paddingTop := e.padding.top.getD 2
    paddingBottom := e.padding.bottom.getD 2
    paddingLeft := e.padding.left.getD 2
    paddingRight := e.padding.right.getD 2
    headerFont := e.headerFont.getD "Helvetica-Bold".data
    headerSize
    headerLeading := e.headerLeading.getD (headerSize * (12/10))
    rowFont := e.rowFont.getD "Helvetica".data
    rowSize
    rowLeading
    headerGap := e.headerGap.getD rowLeading
    columns := e.columns }

/-- The ops emitted by `render_header`: one text op per column at the
table origin, cursor advancing by each column's width.  `baselineY` is
`baseline_to_canvas(y_origin + header_leading)` (a per-composition
constant). -/
def headerOpsAux (p : TableParams) (baselineY : ℚ) : ℚ → List ColumnE → List Op
  | _, [] => []
  | xCursor, col :: rest =>
    let width := col.width.getD 60
    Op.text (col.header.getD []) (xCursor + p.paddingLeft) baselineY
        p.headerFont p.headerSize (col.align.getD "left".data)
        (some (width - (p.paddingLeft + p.paddingRight))) none none ::
      headerOpsAux p baselineY (xCursor + width) rest

/-- All ops of one header row. -/
def headerOps (ctx : Ctx) (p : TableParams) : List Op :=
  headerOpsAux p (ctx.baselineToCanvas (p.yOrigin + p.headerLeading)) p.xOrigin p.columns

/-- Source `render_header`: emit the header ops onto the current page. -/
def renderHeader (ctx : Ctx) (p : TableParams) : Ctx :=
  (headerOps ctx p).foldl Ctx.addOp ctx

/-- Python `str()` of an lxml element (`"<Element tag at 0x…>"`).  lxml's
`xpath` never returns a bare element outside a list, so this branch is
unreachable against lxml; it is modelled as a fixed placeholder. -/
def elemStr (_e : Elem) : Str := "<Element>".data

/-- Normalisation of one item in `render_row`'s relative-binding branch:
`v if isinstance(v, str) else getattr(v, "text", "")` (an element's
`.text` may be Python `None`). -/
def itemNorm : XItem → Option Str
  | .smart s => some s
  | .elem e => e.text

/-- `" ".join(...)`. -/
def joinSpace (ss : List Str) : Str := List.intercalate [' '] ss

/-- Cell text resolution in `render_row`: empty for a falsy binding,
`eval_string` against the document root for an absolute binding
(starting with `/`), otherwise a row-relative query (prefixed by `./`
unless it already starts with `.`), whose failures are *not* caught. -/
def cellText (xp : XPath) (nxp : NodeXPath) (rowNode : Elem) (binding : Option Str) :
    Except Unit Str :=
  match binding with
  | none => .ok []
  | some b =>
    if b = [] then .ok []
    else if b.head? = some '/' then evalString xp b
    else
      let expr := if b.head? = some '.' then b else '.' :: '/' :: b
      match nxp rowNode expr with
      | .raise => .error ()
      | .ok (.list items) =>
        .ok (joinSpace (((items.map itemNorm).filterMap id).filter (fun s => s ≠ [])))
      | .ok (.single e) => .ok (elemStr e)
      | .ok (.scalar s) => .ok s

/-- The first loop of `render_row`: resolve and wrap every cell
(`for width, binding in zip(column_widths, col_bindings)`). -/
def cellsResolve (M : Measure) (xp : XPath) (nxp : NodeXPath) (p : TableParams)
    (rowNode : Elem) : List (ℚ × Option Str) → Except Unit (List (List Str))
  | [] => .ok []
  | (w, b) :: rest => do
    let t ← cellText xp nxp rowNode b
    let lines := wrapText M t (w - (p.paddingLeft + p.paddingRight)) p.rowFont p.rowSize true
    let others ← cellsResolve M xp nxp p rowNode rest
    .ok (lines :: others)

/-- The emission loop of `render_row`: one text op per wrapped line per
column, columns offset by the running sum of column widths. -/
def rowCellOpsAux (ctx : Ctx) (p : TableParams) (yStart : ℚ) :
    ℚ → List (List Str × ℚ × Str) → List Op
  | _, [] => []
  | xCursor, (lines, w, align) :: rest =>
    lines.enum.map (fun il =>
      Op.text il.2 (xCursor + p.paddingLeft)
        (ctx.baselineToCanvas (yStart + p.paddingTop + (il.1 : ℚ) * p.rowLeading + p.rowSize))
        p.rowFont p.rowSize align (some (w - (p.paddingLeft + p.paddingRight))) none none)
      ++ rowCellOpsAux ctx p yStart (xCursor + w) rest

/-- All cell ops of one data row placed at `yStart`. -/
def rowCellOps (ctx : Ctx) (p : TableParams) (yStart : ℚ) (cells : List (List Str)) :
    List Op :=
  rowCellOpsAux ctx p yStart p.xOrigin (cells.zip (p.columnWidths.zip p.colAligns))

/-- Instrumentation record for one data row: the cell ops it emitted and
whether it triggered a page break. -/
structure RowTrace where
  ops : List Op
  broke : Bool
deriving Repr, DecidableEq

/-- Source `render_row`: resolve and wrap all cells, compute the full row
height, start a new page (re-emitting the header) if the row would cross
`bottom_limit`, then emit every cell line.  Returns the updated context,
the new `y` cursor, and the row's instrumentation trace. -/
def renderRow (M : Measure) (xp : XPath) (nxp : NodeXPath) (p : TableParams)
    (ctx : Ctx) (rowNode : Elem) (yStart : ℚ) : Except Unit (Ctx × ℚ × RowTrace) :=
  match cellsResolve M xp nxp p rowNode (p.columnWidths.zip p.colBindings) with
  | .error e => .error e
  | .ok cells =>
    let maxLines : ℕ := cells.foldl (fun m ls => max m ls.length) 1
    let rowHeight := (maxLines : ℚ) * p.rowLeading + p.paddingTop + p.paddingBottom
    let cyb :=
      if ctx.bottomLimit < yStart + rowHeight then
        (renderHeader ctx.newPage p, p.yOrigin + p.headerLeading + p.headerGap, true)
      else (ctx, yStart, false)
    let ops := rowCellOps cyb.1 p cyb.2.1 cells
    .ok (ops.foldl Ctx.addOp cyb.1, cyb.2.1 + rowHeight, ⟨ops, cyb.2.2⟩)

/-- The row loop at the bottom of `_compose_repeating_table`. -/
def renderRows (M : Measure) (xp : XPath) (nxp : NodeXPath) (p : TableParams) :
    List Elem → Ctx → ℚ → Except Unit (Ctx × ℚ × List RowTrace)
  | [], ctx, y => .ok (ctx, y, [])
  | row :: rest, ctx, y =>
    match renderRow M xp nxp p ctx row y with
    | .error e => .error e
    | .ok ctr =>
      match renderRows M xp nxp p rest ctr.1 ctr.2.1 with
      | .error e => .error e
      | .ok rest' => .ok (rest'.1, rest'.2.1, ctr.2.2 :: rest'.2.2)

/-- Source `ElementComposer._compose_repeating_table`, instrumented with
the per-row traces. -/
def composeRepeatingTableT (M : Measure) (xp : XPath) (nxp : NodeXPath)
    (ctx : Ctx) (e : TableE) : Except Unit (Ctx × List RowTrace) :=
  let rows := evalNodes xp (e.binding.getD [])
  if rows = [] then .ok (ctx, [])
  else if e.columns = [] then .ok (ctx, [])
  else
    let p := mkTableParams ctx e
    let ctx := renderHeader ctx p
    let yCursor := p.yOrigin + p.headerLeading + p.headerGap
    (renderRows M xp nxp p rows ctx yCursor).map (fun r => (r.1, r.2.2))

/-- Source `ElementComposer._compose_repeating_table` (behaviour only). -/
def composeRepeatingTable (M : Measure) (xp : XPath) (nxp : NodeXPath)
    (ctx : Ctx) (e : TableE) : Except Unit Ctx :=
  (composeRepeatingTableT M xp nxp ctx e).map (fun r => r.1)

/-- Source `ElementComposer.compose`: dispatch on the `"type"` string;
unrecognized types fall through and leave the context untouched. -/
def composeElement (M : Measure) (xp : XPath) (nxp : NodeXPath)
    (ctx : Ctx) (el : Element) : Except Unit Ctx :=
  match el with
  | .staticText e => .ok (composeTextLine M ctx e (e.text.getD []))
  | .dynamicText e => (evalString xp (e.binding.getD [])).map (composeTextLine M ctx e)
  | .textBox e =>
    match (match e.text with
           | some t => Except.ok t
           | none => evalString xp (e.binding.getD [])) with
    | .error err => .error err
    | .ok value => .ok (composeTextBoxT M ctx e value).1
  | .image e => .ok (composeImage ctx e)
  | .rule e => .ok (composeRule ctx e)
  | .repeatingTable e => composeRepeatingTable M xp nxp ctx e
  | .other _ => .ok ctx

/-- The element loop of `compose`. -/
def composeElements (M : Measure) (xp : XPath) (nxp : NodeXPath) :
    List Element → Ctx → Except Unit Ctx
  | [], ctx => .ok ctx
  | el :: rest, ctx =>
    match composeElement M xp nxp ctx el with
    | .error e => .error e
    | .ok ctx' => composeElements M xp nxp rest ctx'

/-- The `baseline` dict of the page config. -/
structure BaselineConf where
  leading : Option ℚ
  offset : Option ℚ
deriving Repr, DecidableEq

/-- The `page` dict of a template.  `baseline = none` models an absent or
empty (falsy) baseline dict. -/
structure PageConf where
  width : Option ℚ
  height : Option ℚ
  margins : MarginsConf
  baseline : Option BaselineConf
deriving Repr, DecidableEq

/-- A template: page config plus element list. -/
structure Template where
  page : PageConf
  elements : List Element
deriving Repr, DecidableEq

/-- Source module-level `compose(template, xml_root)`.  The XML root and
the lxml engine are abstracted by the `xp`/`nxp` oracles, the metrics
provider by `M`. -/
def compose (M : Measure) (xp : XPath) (nxp : NodeXPath) (t : Template) :
    Except Unit (List (List Op)) :=
  let pageWidth := t.page.width.getD 612
  let pageHeight := t.page.height.getD 792
  let grid : Option BaselineGrid :=
    match t.page.baseline with
    | none => none
    | some bc =>
      match bc.leading with
      | none => none
      | some l =>
        if l = 0 then none
        else some ⟨l, bc.offset.getD (t.page.margins.t.getD 36)⟩
  let ctx := Ctx.init pageWidth pageHeight t.page.margins grid
  (composeElements M xp nxp t.elements ctx).map (fun c => c.pages)

/-! ## Specification-side helper definitions -/

/-- The text carried by a text op (empty for image/line ops). -/
def Op.textD : Op → Str
  | .text t _ _ _ _ _ _ _ _ => t
  | _ => []

/-- `pagesExtends p q`: the page list `q` is an append-only extension of
`p` — `q` has at least as many pages, every page of `p` other than the
last is unchanged in `q`, and the last page of `p` is a prefix of the
page at the same position in `q`. -/
def pagesExtends (p q : List (List Op)) : Prop :=
  p.length ≤ q.length ∧
  (∀ i, i + 1 < p.length → q[i]? = p[i]?) ∧
  ∀ pl, p[p.length - 1]? = some pl → ∃ r, q[p.length - 1]? = some (pl ++ r)

/-- `ops` occur contiguously inside a single page of `pages`. -/
def opsOnOnePage (ops : List Op) (pages : List (List Op)) : Prop :=
  ∃ pg ∈ pages, ops <:+: pg

/-! ## Concrete worlds used by witnesses and counterexamples -/

/-- A monospace metrics provider: every character is one unit wide
(the behaviour of `stringWidth` for a monospaced font at unit size). -/
def Mchar : Measure := fun s _ _ => (s.length : ℚ)

/-- XPath oracle for the document `<r><c/>tail</r>`: the node-set query
`/r/node()` returns the element `<c/>` followed by the text node
`"tail"` (a smart string), exactly as lxml does. -/
def xpMixed : XPath := fun e =>
  if e = "/r/node()".data then .ok (.list [.elem ⟨0, none⟩, .smart "tail".data])
  else .raise

/-- XPath oracle exposing two row elements under `/rows`. -/
def xpRows2 : XPath := fun e =>
  if e = "/rows".data then .ok (.list [.elem ⟨1, some "a".data⟩, .elem ⟨2, some "b".data⟩])
  else .raise

/-- XPath oracle exposing four row elements under `/rows`. -/
def xpRows4 : XPath := fun e =>
  if e = "/rows".data then
    .ok (.list [.elem ⟨1, some "t1".data⟩, .elem ⟨2, some "t2".data⟩,
      .elem ⟨3, some "t3".data⟩, .elem ⟨4, some "t4".data⟩])
  else .raise

/-- Row-node oracle: the relative query `./c` on a row returns the row
node itself (so a column binding `c` resolves to the row's text). -/
def nxpSelf : NodeXPath := fun r e =>
  if e = "./c".data then .ok (.list [.elem r]) else .raise

/-- A RepeatingTable element with a non-empty binding and an empty
`columns` array. -/
def emptyColsTable : TableE :=
  { binding := some "/rows".data, x := some 10, y := some 10
    padding := ⟨none, none, none, none⟩
    headerFont := none, headerSize := none, headerLeading := none
    rowFont := none, rowSize := none, rowLeading := none, headerGap := none
    columns := [] }

/-- A template whose only element is the empty-columns table. -/
def tmplEmptyCols : Template :=
  { page := { width := some 200, height := some 100
              margins := ⟨none, none, none, none⟩, baseline := none }
    elements := [.repeatingTable emptyColsTable] }

/-- A fresh 200×200 context with default margins and no grid. -/
def ctx0 : Ctx := Ctx.init 200 200 ⟨none, none, none, none⟩ none

/-- A TextBox with a *negative* width and positive height. -/
def tbNegW : TextBoxE :=
  { font := none, size := none, leading := none, hyphenate := none
    align := none, ellipsis := none, width := some (-5), height := some 10
    paddingTop := none, paddingLeft := none, paddingRight := none
    x := none, y := none, text := some [], binding := none }

/-- A TextBox with its width omitted. -/
def tbNoW : TextBoxE :=
  { font := none, size := none, leading := none, hyphenate := none
    align := none, ellipsis := none, width := none, height := some 10
    paddingTop := none, paddingLeft := none, paddingRight := none
    x := none, y := none, text := some [], binding := none }

/-- An Image element with its width omitted. -/
def imgNoW : ImageE :=
  { path := some "logo.png".data, width := none, height := some 10, x := none, y := none }

/-- A TextBox 100 wide and 10 high with leading 12: its height is
smaller than one leading. -/
def tbSmallH : TextBoxE :=
  { font := none, size := some 10, leading := some 12, hyphenate := none
    align := none, ellipsis := none, width := some 100, height := some 10
    paddingTop := none, paddingLeft := none, paddingRight := none
    x := none, y := none, text := some "hi".data, binding := none }

/-- A DynamicText element bound to the mixed node-set query. -/
def dtMixed : TextLineE :=
  { font := none, size := none, align := none, x := none, y := none
    maxWidth := none, tabLeader := none, leaderTargetX := none
    text := none, binding := some "/r/node()".data }

/-- A template whose only element is the DynamicText over the mixed
node-set. -/
def tmplMixed : Template :=
  { page := { width := some 200, height := some 100
              margins := ⟨none, none, none, none⟩, baseline := none }
    elements := [.dynamicText dtMixed] }

/-- A template with a single element of unrecognized type. -/
def tmplUnknown : Template :=
  { page := { width := some 200, height := some 100
              margins := ⟨none, none, none, none⟩, baseline := none }
    elements := [.other (some "Banner".data)] }

/-- A one-column RepeatingTable over `/rows` whose rows are 15 units
high. -/
def table4 : TableE :=
  { binding := some "/rows".data, x := some 10, y := some 10
    padding := ⟨some 2, some 2, some 2, some 2⟩
    headerFont := none, headerSize := some 10, headerLeading := some 12
    rowFont := none, rowSize := some 9, rowLeading := some 11
    headerGap := some 6
    columns := [{ header := some "H".data, binding := some "c".data
                  width := some 60, align := none }] }

/-- A 200×100 context whose printable area fits three 15-unit rows
below the table header. -/
def ctxTable : Ctx := Ctx.init 200 100 ⟨some 10, some 10, some 10, some 24⟩ none

/-- The result of composing `table4` in `ctxTable` (it spans two pages:
three rows on the first, one on the second). -/
def table4Res : Ctx × List RowTrace :=
  match composeRepeatingTableT Mchar xpRows4 nxpSelf ctxTable table4 with
  | .ok r => r
  | .error _ => (ctxTable, [])

/-- A StaticText element with all fields defaulted. -/
def stPlain : TextLineE :=
  { font := none, size := none, align := none, x := none, y := none
    maxWidth := none, tabLeader := none, leaderTargetX := none
    text := some "hello".data, binding := none }

/-- The context after composing a single StaticText element in `ctx0`. -/
def c9OutCtx : Ctx :=
  match composeElements Mchar xpRows2 nxpSelf [.staticText stPlain] ctx0 with
  | .ok c => c
  | .error _ => ctx0

/-- The pages produced by composing the unknown-element template. -/
def unknownPages : List (List Op) :=
  match compose Mchar xpRows2 nxpSelf tmplUnknown with
  | .ok p => p
  | .error _ => []

/-! # Theorems -/

/-- `Rat.floor` agrees with the `FloorRing` floor on `ℚ`. -/
theorem ratFloor_eq (q : ℚ) : q.floor = ⌊q⌋ := by
  rw [Rat.floor_def', ← Rat.floor_def]

theorem pythonRound_intCast (k : ℤ) : pythonRound (k : ℚ) = k := by
  unfold pythonRound
  simp only [ratFloor_eq]
  simp

theorem pythonRound_nonneg {q : ℚ} (h : 0 ≤ q) : 0 ≤ pythonRound q := by
  unfold pythonRound
  simp only [ratFloor_eq]
  have hf : (0 : ℤ) ≤ ⌊q⌋ := Int.floor_nonneg.mpr h
  split_ifs <;> omega

/-- **C8** (confirmed): baseline-grid alignment is idempotent — for every
configured grid (any `leading`, `offset`) and every baseline `b`,
`align (align b) = align b`. -/
theorem c8_baseline_align_idempotent (g : BaselineGrid) (b : ℚ) :
    g.align (g.align b) = g.align b := by
  unfold BaselineGrid.align
  by_cases hl : g.leading ≤ 0
  · simp [hl]
  · have hlpos : 0 < g.leading := lt_of_not_ge hl
    simp only [if_neg hl]
    by_cases hb : b ≤ g.offset
    · simp [hb]
    · simp only [if_neg hb]
      have hk0 : 0 ≤ pythonRound ((b - g.offset) / g.leading) :=
        pythonRound_nonneg (div_nonneg (by linarith) hlpos.le)
      set k := pythonRound ((b - g.offset) / g.leading) with hkdef
      by_cases ha : g.offset + (k : ℚ) * g.leading ≤ g.offset
      · have h1 : (k : ℚ) * g.leading ≤ 0 := by linarith
        have h2 : 0 ≤ (k : ℚ) * g.leading :=
          mul_nonneg (by exact_mod_cast hk0) hlpos.le
        have h3 : (k : ℚ) * g.leading = 0 := le_antisymm h1 h2
        rw [if_pos ha, h3, add_zero]
      · rw [if_neg ha]
        have hdiv : (g.offset + (k : ℚ) * g.leading - g.offset) / g.leading = (k : ℚ) := by
          field_simp
        rw [hdiv, pythonRound_intCast]

/-- **C7** (code bug): `eval_string` *can* raise.  On the document
`<r><c/>tail</r>` the expression `/r/node()` yields the node-set
`[<c/>, "tail"]`; its first item is an element, so the code evaluates
`node.text` over *all* items, and reading `.text` off the smart string
`"tail"` raises `AttributeError` — the `try/except` protects only the
`xpath()` call itself.  This contradicts the claimed (and clearly
intended) contract that `eval_string` never raises. -/
theorem c7_eval_string_raises :
    evalString xpMixed "/r/node()".data = .error () := by
  with_unfolding_all rfl

/-- **C1** counterexample: composing a template whose RepeatingTable has
a non-empty row node-set (two rows under `/rows`) but an empty `columns`
array returns normally with one empty page — no error is raised, no
configuration failure names the element, and the table is silently
omitted.  This refutes the claim that compose raises/reports for empty
`columns`. -/
theorem c1_counterexample :
    compose Mchar xpRows2 nxpSelf tmplEmptyCols = .ok [[]] := by
  with_unfolding_all rfl

/-- **C1** (amended): a RepeatingTable element with an empty `columns`
array is a silent no-op — `_compose_repeating_table` returns the context
unchanged and reports no error, for every data source. -/
theorem c1_amended (M : Measure) (xp : XPath) (nxp : NodeXPath) (ctx : Ctx)
    (e : TableE) (h : e.columns = []) :
    composeRepeatingTable M xp nxp ctx e = .ok ctx := by
  by_cases hrows : evalNodes xp (e.binding.getD []) = [] <;>
    simp [composeRepeatingTable, composeRepeatingTableT, hrows, h, Except.map]

/-- Witness for `c1_amended` at a concrete element and data source. -/
theorem c1_witness :
    emptyColsTable.columns = [] ∧
    composeRepeatingTable Mchar xpRows2 nxpSelf ctx0 emptyColsTable = .ok ctx0 :=
  ⟨rfl, c1_amended Mchar xpRows2 nxpSelf ctx0 emptyColsTable rfl⟩

/-- **C4** counterexample: a TextBox whose width is *negative* (−5 here,
with positive height) is not treated as degenerate: Python's truthiness
check `not width` is false for −5, so composition proceeds and emits a
draw operation, refuting the claim that a TextBox with negative width
produces no draw operations. -/
theorem c4_counterexample :
    tbNegW.width = some (-5) ∧ (composeTextBoxT Mchar ctx0 tbNegW []).2 ≠ [] := by
  have h1 : (composeTextBoxT Mchar ctx0 tbNegW []).2.length = 1 := by
    with_unfolding_all rfl
  exact ⟨rfl, fun h => by simp [h] at h1⟩

/-- **C4** (amended): a TextBox or Image element whose width or height is
*missing or zero* (Python-falsy) produces no draw operations and no
error from its rendering routine; in particular an Image with `width`
omitted produces zero ops.  (Negative dimensions are *not* degenerate:
see the counterexample.) -/
theorem c4_amended :
    (∀ (M : Measure) (ctx : Ctx) (e : TextBoxE) (text : Str),
      (qFalsy e.width || qFalsy e.height) = true →
      composeTextBoxT M ctx e text = (ctx, [])) ∧
    (∀ (ctx : Ctx) (e : ImageE),
      (qFalsy e.width || qFalsy e.height) = true → composeImage ctx e = ctx) ∧
    (∀ (ctx : Ctx) (e : ImageE), e.width = none → composeImage ctx e = ctx) := by
  have himg : ∀ (ctx : Ctx) (e : ImageE),
      (qFalsy e.width || qFalsy e.height) = true → composeImage ctx e = ctx := by
    intro ctx e h
    unfold composeImage
    cases e.path with
    | none => rfl
    | some p =>
      by_cases hp : p = [] <;> simp [hp, h]
  refine ⟨?_, himg, ?_⟩
  · intro M ctx e text h
    unfold composeTextBoxT
    simp [h]
  · intro ctx e h
    exact himg ctx e (by simp [qFalsy, h])

/-- Witness for `c4_amended` at concrete degenerate elements. -/
theorem c4_witness :
    composeTextBoxT Mchar ctx0 tbNoW [] = (ctx0, []) ∧ composeImage ctx0 imgNoW = ctx0 :=
  ⟨c4_amended.1 Mchar ctx0 tbNoW [] (by rfl), c4_amended.2.2 ctx0 imgNoW rfl⟩

/-- **C2** counterexample: `tbSmallH` is a TextBox with positive width
(100), height (10) and leading (12) and zero top padding; the claimed
bound `maxLines = floor((height − paddingTop) / leading)` is
`floor(10/12) = 0`, yet composing it over the text `"hi"` emits one text
line — the code clamps `maxLines` below by 1 (`max(1, int(...))`), so
the emitted count exceeds the claimed bound. -/
theorem c2_counterexample :
    ¬ (((composeTextBoxT Mchar ctx0 tbSmallH "hi".data).2.length : ℤ)
        ≤ ⌊((10 - 0 : ℚ)) / 12⌋) := by
  have h1 : (composeTextBoxT Mchar ctx0 tbSmallH "hi".data).2.length = 1 := by
    with_unfolding_all rfl
  have h2 : ⌊((10 - 0 : ℚ)) / 12⌋ = 0 := by
    rw [← ratFloor_eq]; with_unfolding_all rfl
  rw [h1, h2]; omega

/-- **C2** (amended): for a TextBox with positive width, height and
leading, the emitted line count is `min(wrappedCount, maxLines)` for
`maxLines = max(1, int((height − paddingTop) / leading))` — i.e. the
claimed floor bound holds only with the code's additional clamp to a
minimum of one line — and when the wrapped count exceeds `maxLines` and
ellipsis is enabled, the emitted line texts are the first `maxLines − 1`
wrapped lines followed by the ellipsized form of the last retained
line. -/
theorem c2_amended (M : Measure) (ctx : Ctx) (e : TextBoxE) (text : Str)
    (W H font size leading effW wrapped maxL)
    (hW : e.width = some W) (hH : e.height = some H)
    (hWpos : 0 < W) (hHpos : 0 < H)
    (hfont : font = e.font.getD "Helvetica".data)
    (hsize : size = e.size.getD 10)
    (hlead : leading = e.leading.getD (size * (12/10)))
    (hLpos : 0 < leading)
    (heffW : effW = max 0 (W - (e.paddingLeft.getD 0 + e.paddingRight.getD 0)))
    (hwrap : wrapped = wrapText M text effW font size (e.hyphenate.getD true))
    (hmax : maxL = max 1 (pyInt ((H - e.paddingTop.getD 0) / leading))) :
    (composeTextBoxT M ctx e text).2.length = min wrapped.length maxL.toNat ∧
    ((maxL < (wrapped.length : ℤ) ∧ e.ellipsis.getD true = true) →
      (composeTextBoxT M ctx e text).2.map Op.textD =
        (wrapped.take maxL.toNat).dropLast ++
          [applyEllipsis M ((wrapped.take maxL.toNat).getLastD []) effW font size]) := by
  have hq : (qFalsy e.width || qFalsy e.height) = false := by
    simp [qFalsy, hW, hH, hWpos.ne', hHpos.ne']
  have hmax1 : (1 : ℤ) ≤ maxL := by rw [hmax]; exact le_max_left _ _
  unfold composeTextBoxT
  rw [hq]
  simp only [Bool.false_eq_true, if_false, hW, hH, Option.getD_some]
  rw [← hfont, ← hsize, ← hlead, ← heffW, ← hwrap, ← hmax]
  by_cases hlt : maxL < (wrapped.length : ℤ)
  · have htake : (wrapped.take maxL.toNat).length = maxL.toNat := by
      rw [List.length_take]
      omega
    have htne : wrapped.take maxL.toNat ≠ [] := by
      intro hnil
      rw [hnil] at htake
      simp at htake
      omega
    rw [if_pos hlt]
    by_cases hell : e.ellipsis.getD true = true
    · rw [if_pos ⟨hell, htne⟩]
      constructor
      · simp only [List.length_map, List.enum_length, List.length_append,
          List.length_dropLast, List.length_singleton, htake]
        omega
      · intro _
        rw [List.map_map]
        have : (Op.textD ∘ fun il : ℕ × Str =>
            Op.text il.2 (e.x.getD ctx.marginL + e.paddingLeft.getD 0)
              (ctx.baselineToCanvas
                (e.y.getD ctx.marginT + e.paddingTop.getD 0 + size + (il.1 : ℚ) * leading))
              font size (e.align.getD "left".data) (some effW) none none) = Prod.snd := by
          funext il
          rfl
        rw [this, List.enum_map_snd]
    · rw [if_neg (fun hc => hell hc.1)]
      refine ⟨?_, fun hc => absurd hc.2 hell⟩
      simp only [List.length_map, List.enum_length, htake]
      omega
  · rw [if_neg hlt]
    refine ⟨?_, fun hc => absurd hc.1 hlt⟩
    simp only [List.length_map, List.enum_length]
    omega

/-- Witness for `c2_amended` at the concrete TextBox `tbSmallH`. -/
theorem c2_witness :
    (composeTextBoxT Mchar ctx0 tbSmallH "hi".data).2.length =
      min (wrapText Mchar "hi".data (max 0 (100 - (0 + 0))) "Helvetica".data 10 true).length
        (max 1 (pyInt ((10 - 0) / 12))).toNat :=
  (c2_amended Mchar ctx0 tbSmallH "hi".data 100 10 "Helvetica".data 10 12
    (max 0 (100 - (0 + 0)))
    (wrapText Mchar "hi".data (max 0 (100 - (0 + 0))) "Helvetica".data 10 true)
    (max 1 (pyInt ((10 - 0) / 12)))
    rfl rfl (by norm_num) (by norm_num) rfl rfl rfl (by norm_num) rfl rfl rfl).1

/-- Pieces produced by `splitPred` contain no separator character. -/
theorem splitPred_sep_free (p : Char → Bool) :
    ∀ (s acc : Str), (∀ c ∈ acc, p c = false) →
      ∀ piece ∈ splitPred p acc s, ∀ c ∈ piece, p c = false := by
  intro s
  induction s with
  | nil =>
    intro acc hacc piece hpiece c hc
    simp only [splitPred, List.mem_singleton] at hpiece
    subst hpiece
    exact hacc c (List.mem_reverse.mp hc)
  | cons x xs ih =>
    intro acc hacc piece hpiece c hc
    simp only [splitPred] at hpiece
    by_cases hx : p x
    · rw [if_pos hx] at hpiece
      rcases List.mem_cons.mp hpiece with h | h
      · subst h
        exact hacc c (List.mem_reverse.mp hc)
      · exact ih [] (by simp) piece h c hc
    · rw [if_neg hx] at hpiece
      refine ih (x :: acc) ?_ piece hpiece c hc
      intro d hd
      rcases List.mem_cons.mp hd with h | h
      · subst h; exact Bool.eq_false_iff.mpr hx
      · exact hacc d h

/-- Words produced by Python's `str.split()` contain no whitespace. -/
theorem pySplit_sep_free (s : Str) :
    ∀ w ∈ pySplit s, ∀ c ∈ w, pyIsSpace c = false := by
  intro w hw
  exact splitPred_sep_free pyIsSpace s [] (by simp) w (List.mem_of_mem_filter hw)

/-- Hyphen segments of a whitespace-free word are whitespace-free. -/
theorem splitLongWordFuel_space_free (M : Measure) (width : ℚ) (font : Str) (size : ℚ) :
    ∀ (fuel : ℕ) (word : Str), (∀ c ∈ word, pyIsSpace c = false) →
      ∀ seg ∈ splitLongWordFuel M width font size fuel word,
        ∀ c ∈ seg, pyIsSpace c = false := by
  intro fuel
  induction fuel with
  | zero =>
    intro word hword seg hseg c hc
    simp only [splitLongWordFuel, List.mem_singleton] at hseg
    subst hseg
    exact hword c hc
  | succ n ih =>
    intro word hword seg hseg c hc
    simp only [splitLongWordFuel] at hseg
    split at hseg
    · rcases List.mem_cons.mp hseg with h | h
      · subst h
        rcases List.mem_append.mp hc with h' | h'
        · exact hword c (List.take_subset _ _ h')
        · simp only [List.mem_singleton] at h'
          subst h'
          rfl
      · exact ih _ (fun d hd => hword d (List.drop_subset _ _ hd)) seg h c hc
    · simp only [List.mem_singleton] at hseg
      subst hseg
      exact hword c hc

/-- `_split_long_word` output of a whitespace-free word is
whitespace-free. -/
theorem splitLongWord_space_free (M : Measure) (word : Str) (width : ℚ) (font : Str)
    (size : ℚ) (hyphenate : Bool) (hword : ∀ c ∈ word, pyIsSpace c = false) :
    ∀ seg ∈ splitLongWord M word width font size hyphenate,
      ∀ c ∈ seg, pyIsSpace c = false := by
  intro seg hseg c hc
  unfold splitLongWord at hseg
  split at hseg
  · simp only [List.mem_singleton] at hseg
    subst hseg
    exact hword c hc
  · exact splitLongWordFuel_space_free M width font size _ word hword seg hseg c hc

/-- The default-or-last element of a non-empty list is a member. -/
theorem mem_getLastD {α : Type} (l : List α) (h : l ≠ []) (d : α) : l.getLastD d ∈ l := by
  rw [List.getLastD_eq_getLast?, List.getLast?_eq_getLast l h]
  exact List.getLast_mem h

/-- Key invariant of the word-packing loop: assuming the pending line
`current` fits whenever it contains whitespace and all remaining words
are whitespace-free, every produced line that contains whitespace fits
within `width`. -/
theorem wrapWords_space_fit (M : Measure) (width : ℚ) (font : Str) (size : ℚ)
    (hyphenate : Bool) :
    ∀ (words : List Str) (current : Str),
      ((∃ c ∈ current, pyIsSpace c = true) → M current font size ≤ width) →
      (∀ w ∈ words, ∀ c ∈ w, pyIsSpace c = false) →
      ∀ L ∈ wrapWords M width font size hyphenate current words,
        (∃ c ∈ L, pyIsSpace c = true) → M L font size ≤ width := by
  intro words
  induction words with
  | nil =>
    intro current hcur _ L hL hsp
    simp only [wrapWords] at hL
    split at hL
    · simp only [List.mem_singleton] at hL
      subst hL
      assumption
    · rename_i hfit
      have hfree : ∀ c ∈ current, pyIsSpace c = false := by
        intro c hc
        cases hpc : pyIsSpace c
        · rfl
        · exact absurd (hcur ⟨c, hc, hpc⟩) hfit
      obtain ⟨c, hc, hs⟩ := hsp
      have hx := splitLongWord_space_free M current width font size hyphenate hfree L hL c hc
      rw [hx] at hs
      exact absurd hs (by simp)
  | cons next rest ih =>
    intro current hcur hwords L hL hsp
    have hnext : ∀ c ∈ next, pyIsSpace c = false := hwords next (List.mem_cons_self _ _)
    have hrest : ∀ w ∈ rest, ∀ c ∈ w, pyIsSpace c = false :=
      fun w hw => hwords w (List.mem_cons_of_mem _ hw)
    have hsegs : ∀ seg ∈ splitLongWord M next width font size hyphenate,
        ∀ c ∈ seg, pyIsSpace c = false :=
      splitLongWord_space_free M next width font size hyphenate hnext
    simp only [wrapWords] at hL
    split at hL
    · rename_i hfit
      exact ih _ (fun _ => hfit) hrest L hL hsp
    · split at hL
      · -- current = []: hyphen-split `next`, keep packing with the last segment
        rcases List.mem_append.mp hL with h | h
        · obtain ⟨c, hc, hs⟩ := hsp
          have hx := hsegs L (List.dropLast_subset _ h) c hc
          rw [hx] at hs
          exact absurd hs (by simp)
        · refine ih _ ?_ hrest L h hsp
          intro ⟨c, hc, hs⟩
          rcases hsl : splitLongWord M next width font size hyphenate with _ | ⟨a, as⟩
          · rw [hsl] at hc
            exact absurd hc (by simp)
          · have hmem : (splitLongWord M next width font size hyphenate).getLastD [] ∈
                splitLongWord M next width font size hyphenate := by
              rw [hsl]
              exact mem_getLastD _ (by simp) _
            have hx := hsegs _ hmem c hc
            rw [hx] at hs
            exact absurd hs (by simp)
      · -- current is emitted as a finished line
        rcases List.mem_cons.mp hL with h | h
        · subst h
          exact hcur hsp
        · refine ih _ ?_ hrest L h hsp
          intro ⟨c, hc, hs⟩
          have hx := hnext c hc
          rw [hx] at hs
          exact absurd hs (by simp)

/-- **C3** counterexample: wrapping the text `"aaaa b"` at width 2 with a
monospaced metric and `hyphenate = true` produces the line `"aaaa"`,
which measures 4 > 2 and is not a single character — an oversized word
that is *not* the last word of its paragraph is emitted unsplit even
with hyphenation enabled, so the claimed exception («a single
unsplittable character when hyphenate is true») does not cover it. -/
theorem c3_counterexample :
    ¬ ∀ L ∈ wrapText Mchar "aaaa b".data 2 [] 0 true,
        Mchar L [] 0 ≤ 2 ∨ L.length = 1 := by
  intro h
  have he : wrapText Mchar "aaaa b".data 2 [] 0 true = [['a','a','a','a'], ['b']] := by
    with_unfolding_all rfl
  have hm : ['a','a','a','a'] ∈ wrapText Mchar "aaaa b".data 2 [] 0 true := by
    rw [he]; exact List.mem_cons_self _ _
  rcases h _ hm with hle | hlen
  · have : ¬ (Mchar ['a','a','a','a'] [] 0 ≤ 2) := by
      have hv : Mchar ['a','a','a','a'] [] 0 = ((4 : ℕ) : ℚ) := by with_unfolding_all rfl
      rw [hv]
      norm_num
    exact this hle
  · simp at hlen

/-- **C3** (amended): every line produced by `wrap_text` that contains a
whitespace character (i.e. was formed by packing two or more words)
measures within `width`; a line without whitespace — a single word or a
hyphen fragment — may exceed `width` (the code hyphen-splits only the
final word of a paragraph, and its fallback split emits an oversized
`prefix + "-"` when no fitting split point exists). -/
theorem c3_amended (M : Measure) (text : Str) (width : ℚ) (font : Str) (size : ℚ)
    (hyphenate : Bool) (L : Str) (hL : L ∈ wrapText M text width font size hyphenate)
    (hsp : ∃ c ∈ L, pyIsSpace c = true) : M L font size ≤ width := by
  unfold wrapText at hL
  rcases List.mem_flatMap.mp hL with ⟨para, _, hpara⟩
  rcases hws : pySplit para with _ | ⟨w, rest⟩
  · rw [hws] at hpara
    simp only [List.mem_singleton] at hpara
    subst hpara
    obtain ⟨c, hc, _⟩ := hsp
    exact absurd hc (by simp)
  · rw [hws] at hpara
    refine wrapWords_space_fit M width font size hyphenate rest w ?_ ?_ L hpara hsp
    · intro ⟨c, hc, hs⟩
      have := pySplit_sep_free para w (hws ▸ List.mem_cons_self _ _) c hc
      rw [this] at hs
      exact absurd hs (by simp)
    · intro w' hw'
      exact pySplit_sep_free para w' (hws ▸ List.mem_cons_of_mem _ hw')

/-- Witness for `c3_amended`: the two-word line `"hello world"` produced
at width 11 contains a space and measures exactly 11 ≤ 11. -/
theorem c3_witness :
    "hello world".data ∈ wrapText Mchar "hello world new".data 11 [] 0 true ∧
    Mchar "hello world".data [] 0 ≤ 11 := by
  have hm : "hello world".data ∈ wrapText Mchar "hello world new".data 11 [] 0 true := by
    have he : wrapText Mchar "hello world new".data 11 [] 0 true
        = ["hello world".data, "new".data] := by with_unfolding_all rfl
    rw [he]; exact List.mem_cons_self _ _
  refine ⟨hm, c3_amended Mchar "hello world new".data 11 [] 0 true "hello world".data hm ?_⟩
  exact ⟨' ', by with_unfolding_all decide, rfl⟩

/-! ## Append-only page-list machinery -/

theorem pagesExtends_refl (p : List (List Op)) : pagesExtends p p :=
  ⟨le_refl _, fun _ _ => rfl, fun pl h => ⟨[], by simpa using h⟩⟩

theorem pagesExtends_trans {p q r : List (List Op)}
    (h1 : pagesExtends p q) (h2 : pagesExtends q r) : pagesExtends p r := by
  obtain ⟨hl1, he1, hx1⟩ := h1
  obtain ⟨hl2, he2, hx2⟩ := h2
  refine ⟨le_trans hl1 hl2, ?_, ?_⟩
  · intro i hi
    rw [he2 i (by omega), he1 i hi]
  · intro pl hp
    have hppos : 0 < p.length := by
      have := (List.getElem?_eq_some_iff.mp hp).1
      omega
    obtain ⟨r1, hq⟩ := hx1 pl hp
    by_cases hcase : p.length = q.length
    · obtain ⟨r2, hr⟩ := hx2 _ (by rw [← hcase]; exact hq)
      rw [← hcase] at hr
      exact ⟨r1 ++ r2, by rw [hr, List.append_assoc]⟩
    · have hi : p.length - 1 + 1 < q.length := by omega
      exact ⟨r1, by rw [he2 _ hi]; exact hq⟩

theorem pagesExtends_ne_nil {p q : List (List Op)}
    (h : pagesExtends p q) (hp : p ≠ []) : q ≠ [] := by
  intro hq
  have h1 := h.1
  rw [hq] at h1
  simp only [List.length_nil, Nat.le_zero] at h1
  exact hp (List.length_eq_zero.mp h1)

/-- The page-list shape produced by appending ops to the last page. -/
theorem pagesExtends_concat_last (p : List (List Op)) (hp : p ≠ []) (tail : List Op) :
    pagesExtends p (p.dropLast ++ [p.getLastD [] ++ tail]) := by
  have hpl : 1 ≤ p.length := List.length_pos.mpr hp
  have hdl : p.dropLast.length = p.length - 1 := List.length_dropLast p
  refine ⟨?_, ?_, ?_⟩
  · simp only [List.length_append, hdl, List.length_singleton]
    omega
  · intro i hi
    rw [List.getElem?_append_left (by omega), List.dropLast_eq_take,
      List.getElem?_take_of_lt (by omega)]
  · intro pl hp'
    have hlast : p.getLastD [] = pl := by
      rw [List.getLastD_eq_getLast?, List.getLast?_eq_getElem?, hp']
      rfl
    refine ⟨tail, ?_⟩
    rw [List.getElem?_append_right (by omega), hdl, hlast]
    simp [Nat.sub_sub_self]

/-- The page-list shape produced by `new_page` (appending a page). -/
theorem pagesExtends_snoc (p : List (List Op)) (t : List Op) :
    pagesExtends p (p ++ [t]) := by
  refine ⟨by simp, ?_, ?_⟩
  · intro i hi
    rw [List.getElem?_append_left (by omega)]
  · intro pl hp
    have hlt : p.length - 1 < p.length := (List.getElem?_eq_some_iff.mp hp).1
    exact ⟨[], by rw [List.getElem?_append_left hlt, hp, List.append_nil]⟩

/-- A row's ops, once placed inside one page, stay inside one page under
any append-only extension. -/
theorem opsOnOnePage_mono {ops : List Op} {p q : List (List Op)}
    (hext : pagesExtends p q) (h : opsOnOnePage ops p) : opsOnOnePage ops q := by
  obtain ⟨pg, hmem, hinf⟩ := h
  obtain ⟨i, hi⟩ := List.getElem?_of_mem hmem
  have hilt : i < p.length := (List.getElem?_eq_some_iff.mp hi).1
  by_cases hcase : i + 1 < p.length
  · exact ⟨pg, List.getElem?_mem (by rw [hext.2.1 i hcase]; exact hi), hinf⟩
  · have hieq : i = p.length - 1 := by omega
    obtain ⟨r, hr⟩ := hext.2.2 pg (by rw [← hieq]; exact hi)
    exact ⟨pg ++ r, List.getElem?_mem hr, hinf.trans (List.prefix_append pg r).isInfix⟩

/-- Folding `add_op` over an op list appends those ops to the current
page and changes nothing else. -/
theorem foldl_addOp_eq : ∀ (ops : List Op) (c : Ctx), c.pages ≠ [] →
    ops.foldl Ctx.addOp c = { c with pages := c.pages.dropLast ++ [c.curPage ++ ops] } := by
  intro ops
  induction ops with
  | nil =>
    intro c h
    have h2 : c.curPage = c.pages.getLast h := by
      unfold Ctx.curPage
      rw [List.getLastD_eq_getLast?, List.getLast?_eq_getLast _ h]
      rfl
    simp only [List.foldl_nil, List.append_nil, h2, List.dropLast_concat_getLast h]
  | cons op ops ih =>
    intro c h
    rw [List.foldl_cons, ih (c.addOp op) (by unfold Ctx.addOp; simp)]
    unfold Ctx.addOp Ctx.curPage
    simp only [List.dropLast_concat, List.getLastD_eq_getLast?, List.getLast?_concat,
      Option.getD_some, List.append_assoc, List.singleton_append]

theorem foldl_addOp_pages_ne_nil (ops : List Op) (c : Ctx) (h : c.pages ≠ []) :
    (ops.foldl Ctx.addOp c).pages ≠ [] := by
  rw [foldl_addOp_eq ops c h]
  simp

theorem extends_foldl_addOp (ops : List Op) (c : Ctx) (h : c.pages ≠ []) :
    pagesExtends c.pages ((ops.foldl Ctx.addOp c).pages) := by
  rw [foldl_addOp_eq ops c h]
  exact pagesExtends_concat_last c.pages h ops

theorem extends_addOp (c : Ctx) (op : Op) (h : c.pages ≠ []) :
    pagesExtends c.pages ((c.addOp op).pages) :=
  pagesExtends_concat_last c.pages h [op]

theorem addOp_pages_ne_nil (c : Ctx) (op : Op) : (c.addOp op).pages ≠ [] := by
  unfold Ctx.addOp
  simp

/-- `headerOps` reads only the context's geometry, never its pages. -/
theorem headerOps_pages_irrel (c : Ctx) (ps : List (List Op)) (p : TableParams) :
    headerOps { c with pages := ps } p = headerOps c p := rfl

/-- `render_header` on a freshly opened page: the page list gains one
page containing exactly the header ops. -/
theorem renderHeader_newPage_eq (ctx : Ctx) (p : TableParams) :
    renderHeader ctx.newPage p = { ctx with pages := ctx.pages ++ [headerOps ctx p] } := by
  unfold renderHeader
  rw [foldl_addOp_eq _ _ (by unfold Ctx.newPage; simp)]
  unfold Ctx.newPage Ctx.curPage
  simp only [List.dropLast_concat, List.getLastD_eq_getLast?, List.getLast?_concat,
    Option.getD_some, List.nil_append]
  rw [headerOps_pages_irrel]

theorem getElem?_dropLast_concat {α : Type} (p : List α) (x : α) (i : ℕ)
    (hi : i + 1 < p.length) : (p.dropLast ++ [x])[i]? = p[i]? := by
  rw [List.getElem?_append_left (by rw [List.length_dropLast]; omega),
    List.dropLast_eq_take, List.getElem?_take_of_lt (by omega)]

theorem getElem?_concat_last {α : Type} (p : List α) (x : α) (hp : p ≠ []) :
    (p.dropLast ++ [x])[p.length - 1]? = some x := by
  have hpl : 1 ≤ p.length := List.length_pos.mpr hp
  rw [List.getElem?_append_right (by rw [List.length_dropLast])]
  rw [List.length_dropLast]
  simp [Nat.sub_sub_self]

/-- Structure of one `render_row` step: either the row fits and its ops
are appended to the current page, or it overflows and a single new page
is created holding the header ops followed by the row's ops.  In both
cases everything but `pages` is untouched. -/
theorem renderRow_shape (M : Measure) (xp : XPath) (nxp : NodeXPath) (p : TableParams)
    (ctx : Ctx) (rowNode : Elem) (yStart : ℚ) (res : Ctx × ℚ × RowTrace)
    (hne : ctx.pages ≠ [])
    (h : renderRow M xp nxp p ctx rowNode yStart = .ok res) :
    (res.2.2.broke = false ∧
      res.1 = { ctx with pages := ctx.pages.dropLast ++ [ctx.curPage ++ res.2.2.ops] }) ∨
    (res.2.2.broke = true ∧
      res.1 = { ctx with pages := ctx.pages ++ [headerOps ctx p ++ res.2.2.ops] }) := by
  unfold renderRow at h
  split at h
  · exact absurd h (by simp)
  · rename_i cells hcells
    injection h with h'
    subst h'
    split
    · -- overflow: new page, header re-emitted, row ops appended there
      right
      refine ⟨rfl, ?_⟩
      rw [foldl_addOp_eq _ _ (by rw [renderHeader_newPage_eq]; simp)]
      rw [renderHeader_newPage_eq]
      simp only [List.dropLast_concat]
      have hcur : ({ ctx with pages := ctx.pages ++ [headerOps ctx p] } : Ctx).curPage
          = headerOps ctx p := by
        unfold Ctx.curPage
        simp
      rw [hcur]
    · -- row fits: ops appended to the current page
      left
      exact ⟨rfl, foldl_addOp_eq _ ctx hne⟩

theorem renderRow_extends (M : Measure) (xp : XPath) (nxp : NodeXPath) (p : TableParams)
    (ctx : Ctx) (rowNode : Elem) (yStart : ℚ) (res : Ctx × ℚ × RowTrace)
    (hne : ctx.pages ≠ []) (h : renderRow M xp nxp p ctx rowNode yStart = .ok res) :
    pagesExtends ctx.pages res.1.pages ∧ res.1.pages ≠ [] := by
  rcases renderRow_shape M xp nxp p ctx rowNode yStart res hne h with ⟨_, hceq⟩ | ⟨_, hceq⟩
  · rw [hceq]
    exact ⟨pagesExtends_concat_last _ hne _, by simp⟩
  · rw [hceq]
    exact ⟨pagesExtends_snoc _ _, by simp⟩

theorem renderRows_extends (M : Measure) (xp : XPath) (nxp : NodeXPath) (p : TableParams) :
    ∀ (rows : List Elem) (ctx : Ctx) (y : ℚ) (res : Ctx × ℚ × List RowTrace),
      ctx.pages ≠ [] → renderRows M xp nxp p rows ctx y = .ok res →
      pagesExtends ctx.pages res.1.pages ∧ res.1.pages ≠ [] := by
  intro rows
  induction rows with
  | nil =>
    intro ctx y res hne h
    unfold renderRows at h
    injection h with h'
    subst h'
    exact ⟨pagesExtends_refl _, hne⟩
  | cons row rest ih =>
    intro ctx y res hne h
    unfold renderRows at h
    split at h
    · exact absurd h (by simp)
    · rename_i ctr hctr
      split at h
      · exact absurd h (by simp)
      · rename_i rest' hrest
        injection h with h'
        subst h'
        obtain ⟨hext1, hne1⟩ := renderRow_extends M xp nxp p ctx row y ctr hne hctr
        obtain ⟨hext2, hne2⟩ := ih ctr.1 ctr.2.1 rest' hne1 hrest
        exact ⟨pagesExtends_trans hext1 hext2, hne2⟩

/-- Every row's ops land contiguously inside one page of the final page
list of the row loop. -/
theorem renderRows_traces (M : Measure) (xp : XPath) (nxp : NodeXPath) (p : TableParams) :
    ∀ (rows : List Elem) (ctx : Ctx) (y : ℚ) (res : Ctx × ℚ × List RowTrace),
      ctx.pages ≠ [] → renderRows M xp nxp p rows ctx y = .ok res →
      ∀ tr ∈ res.2.2, opsOnOnePage tr.ops res.1.pages := by
  intro rows
  induction rows with
  | nil =>
    intro ctx y res hne h tr htr
    unfold renderRows at h
    injection h with h'
    subst h'
    exact absurd htr (by simp)
  | cons row rest ih =>
    intro ctx y res hne h tr htr
    unfold renderRows at h
    split at h
    · exact absurd h (by simp)
    · rename_i ctr hctr
      split at h
      · exact absurd h (by simp)
      · rename_i rest' hrest
        injection h with h'
        subst h'
        have hne1 : ctr.1.pages ≠ [] :=
          (renderRow_extends M xp nxp p ctx row y ctr hne hctr).2
        rcases List.mem_cons.mp htr with hhd | htl
        · subst hhd
          have hone : opsOnOnePage ctr.2.2.ops ctr.1.pages := by
            rcases renderRow_shape M xp nxp p ctx row y ctr hne hctr with
              ⟨_, hceq⟩ | ⟨_, hceq⟩
            · rw [hceq]
              exact ⟨ctx.curPage ++ ctr.2.2.ops, by simp, ⟨ctx.curPage, [], by simp⟩⟩
            · rw [hceq]
              exact ⟨headerOps ctx p ++ ctr.2.2.ops, by simp,
                ⟨headerOps ctx p, [], by simp⟩⟩
          exact opsOnOnePage_mono
            (renderRows_extends M xp nxp p rest ctr.1 ctr.2.1 rest' hne1 hrest).1 hone
        · exact ih ctr.1 ctr.2.1 rest' hne1 hrest tr htl

/-- Page accounting for the row loop: geometry is untouched, the number
of pages grows by exactly the number of page-breaking rows, pages before
the starting one are unchanged, the starting page is only appended to,
and every newly created page starts with the header ops. -/
theorem renderRows_pages (M : Measure) (xp : XPath) (nxp : NodeXPath) (p : TableParams) :
    ∀ (rows : List Elem) (ctx : Ctx) (y : ℚ) (res : Ctx × ℚ × List RowTrace),
      ctx.pages ≠ [] →
      renderRows M xp nxp p rows ctx y = .ok res →
      res.1 = { ctx with pages := res.1.pages } ∧
      res.1.pages.length
        = ctx.pages.length + (res.2.2.filter (fun t => t.broke)).length ∧
      (∀ i, i + 1 < ctx.pages.length → res.1.pages[i]? = ctx.pages[i]?) ∧
      (∀ pl, ctx.pages[ctx.pages.length - 1]? = some pl →
        ∃ r, res.1.pages[ctx.pages.length - 1]? = some (pl ++ r)) ∧
      (∀ i, ctx.pages.length ≤ i → i < res.1.pages.length →
        ∃ r, res.1.pages[i]? = some (headerOps ctx p ++ r)) := by
  intro rows
  induction rows with
  | nil =>
    intro ctx y res hne h
    unfold renderRows at h
    injection h with h'
    subst h'
    exact ⟨rfl, by simp, fun i _ => rfl,
      fun pl hp => ⟨[], by rw [hp, List.append_nil]⟩,
      fun i h1 h2 => absurd (lt_of_le_of_lt h1 h2) (lt_irrefl _)⟩
  | cons row rest ih =>
    intro ctx y res hne h
    unfold renderRows at h
    split at h
    · exact absurd h (by simp)
    · rename_i ctr hctr
      split at h
      · exact absurd h (by simp)
      · rename_i rest' hrest
        injection h with h'
        subst h'
        have hlpos := List.length_pos.mpr hne
        rcases renderRow_shape M xp nxp p ctx row y ctr hne hctr with
          ⟨hbf, hceq⟩ | ⟨hbt, hceq⟩
        · -- the head row did not break the page
          have hpages1 : ctr.1.pages
              = ctx.pages.dropLast ++ [ctx.curPage ++ ctr.2.2.ops] := by rw [hceq]
          have hne1 : ctr.1.pages ≠ [] := by rw [hpages1]; simp
          obtain ⟨ihg, ihlen, ihearlier, ihlast, ihnew⟩ := ih ctr.1 ctr.2.1 rest' hne1 hrest
          have hlen1 : ctr.1.pages.length = ctx.pages.length := by
            rw [hpages1]
            simp only [List.length_append, List.length_dropLast, List.length_singleton]
            omega
          refine ⟨?_, ?_, ?_, ?_, ?_⟩
          · rw [ihg, hceq]
          · rw [ihlen, hlen1, List.filter_cons, hbf]
            simp
          · intro i hi
            rw [ihearlier i (by omega), hpages1, getElem?_dropLast_concat _ _ _ hi]
          · intro pl hp
            have hcur : ctx.curPage = pl := by
              unfold Ctx.curPage
              rw [List.getLastD_eq_getLast?, List.getLast?_eq_getElem?, hp]
              rfl
            have hlast1 : ctr.1.pages[ctx.pages.length - 1]? = some (pl ++ ctr.2.2.ops) := by
              rw [hpages1, ← hcur]
              exact getElem?_concat_last _ _ hne
            obtain ⟨r2, hr2⟩ := ihlast (pl ++ ctr.2.2.ops) (by rw [hlen1]; exact hlast1)
            rw [hlen1] at hr2
            exact ⟨ctr.2.2.ops ++ r2, by rw [← List.append_assoc]; exact hr2⟩
          · intro i h1 h2
            obtain ⟨r, hr⟩ := ihnew i (by omega) h2
            rw [hceq, headerOps_pages_irrel] at hr
            exact ⟨r, hr⟩
        · -- the head row broke the page: one new page starting with the header
          have hpages1 : ctr.1.pages
              = ctx.pages ++ [headerOps ctx p ++ ctr.2.2.ops] := by rw [hceq]
          have hne1 : ctr.1.pages ≠ [] := by rw [hpages1]; simp
          obtain ⟨ihg, ihlen, ihearlier, ihlast, ihnew⟩ := ih ctr.1 ctr.2.1 rest' hne1 hrest
          have hlen1 : ctr.1.pages.length = ctx.pages.length + 1 := by
            rw [hpages1]
            simp
          refine ⟨?_, ?_, ?_, ?_, ?_⟩
          · rw [ihg, hceq]
          · rw [ihlen, hlen1, List.filter_cons, hbt]
            simp only [if_true, List.length_cons]
            omega
          · intro i hi
            rw [ihearlier i (by omega), hpages1, List.getElem?_append_left (by omega)]
          · intro pl hp
            refine ⟨[], ?_⟩
            rw [List.append_nil, ihearlier (ctx.pages.length - 1) (by omega), hpages1,
              List.getElem?_append_left (by omega)]
            exact hp
          · intro i h1 h2
            by_cases hieq : i = ctx.pages.length
            · subst hieq
              have hl : ctr.1.pages[ctr.1.pages.length - 1]?
                  = some (headerOps ctx p ++ ctr.2.2.ops) := by
                rw [hlen1, Nat.add_sub_cancel, hpages1,
                  List.getElem?_append_right (le_refl _)]
                simp
              obtain ⟨r2, hr2⟩ := ihlast _ hl
              rw [hlen1, Nat.add_sub_cancel] at hr2
              exact ⟨ctr.2.2.ops ++ r2, by rw [← List.append_assoc]; exact hr2⟩
            · obtain ⟨r, hr⟩ := ihnew i (by omega) h2
              rw [hceq, headerOps_pages_irrel] at hr
              exact ⟨r, hr⟩

theorem composeTextLine_extends (M : Measure) (ctx : Ctx) (e : TextLineE) (text : Str)
    (hne : ctx.pages ≠ []) :
    pagesExtends ctx.pages (composeTextLine M ctx e text).pages ∧
      (composeTextLine M ctx e text).pages ≠ [] := by
  unfold composeTextLine
  exact ⟨extends_addOp ctx _ hne, addOp_pages_ne_nil ctx _⟩

theorem composeTextBoxT_extends (M : Measure) (ctx : Ctx) (e : TextBoxE) (text : Str)
    (hne : ctx.pages ≠ []) :
    pagesExtends ctx.pages ((composeTextBoxT M ctx e text).1).pages ∧
      ((composeTextBoxT M ctx e text).1).pages ≠ [] := by
  unfold composeTextBoxT
  by_cases hq : (qFalsy e.width || qFalsy e.height) = true
  · rw [if_pos hq]
    exact ⟨pagesExtends_refl _, hne⟩
  · rw [if_neg hq]
    exact ⟨extends_foldl_addOp _ _ hne, foldl_addOp_pages_ne_nil _ _ hne⟩

theorem composeImage_extends (ctx : Ctx) (e : ImageE) (hne : ctx.pages ≠ []) :
    pagesExtends ctx.pages (composeImage ctx e).pages ∧
      (composeImage ctx e).pages ≠ [] := by
  unfold composeImage
  split
  · exact ⟨pagesExtends_refl _, hne⟩
  · split
    · exact ⟨pagesExtends_refl _, hne⟩
    · split
      · exact ⟨pagesExtends_refl _, hne⟩
      · exact ⟨extends_addOp ctx _ hne, addOp_pages_ne_nil ctx _⟩

theorem composeRule_extends (ctx : Ctx) (e : RuleE) (hne : ctx.pages ≠ []) :
    pagesExtends ctx.pages (composeRule ctx e).pages ∧
      (composeRule ctx e).pages ≠ [] := by
  unfold composeRule
  exact ⟨extends_addOp ctx _ hne, addOp_pages_ne_nil ctx _⟩

theorem composeRepeatingTableT_extends (M : Measure) (xp : XPath) (nxp : NodeXPath)
    (ctx : Ctx) (e : TableE) (res : Ctx × List RowTrace)
    (hne : ctx.pages ≠ []) (h : composeRepeatingTableT M xp nxp ctx e = .ok res) :
    pagesExtends ctx.pages res.1.pages ∧ res.1.pages ≠ [] := by
  unfold composeRepeatingTableT at h
  simp only [] at h
  by_cases hrows : evalNodes xp (e.binding.getD []) = []
  · rw [if_pos hrows] at h
    injection h with h'
    subst h'
    exact ⟨pagesExtends_refl _, hne⟩
  · rw [if_neg hrows] at h
    by_cases hcols : e.columns = []
    · rw [if_pos hcols] at h
      injection h with h'
      subst h'
      exact ⟨pagesExtends_refl _, hne⟩
    · rw [if_neg hcols] at h
      cases hr : renderRows M xp nxp (mkTableParams ctx e)
          (evalNodes xp (e.binding.getD []))
          (renderHeader ctx (mkTableParams ctx e))
          ((mkTableParams ctx e).yOrigin + (mkTableParams ctx e).headerLeading
            + (mkTableParams ctx e).headerGap) with
      | error err =>
        rw [hr] at h
        exact absurd h (by simp [Except.map])
      | ok r =>
        rw [hr] at h
        simp only [Except.map] at h
        injection h with h'
        subst h'
        have hH : pagesExtends ctx.pages (renderHeader ctx (mkTableParams ctx e)).pages ∧
            (renderHeader ctx (mkTableParams ctx e)).pages ≠ [] := by
          unfold renderHeader
          exact ⟨extends_foldl_addOp _ _ hne, foldl_addOp_pages_ne_nil _ _ hne⟩
        obtain ⟨hext2, hne2⟩ := renderRows_extends M xp nxp (mkTableParams ctx e)
          (evalNodes xp (e.binding.getD [])) _ _ r hH.2 hr
        exact ⟨pagesExtends_trans hH.1 hext2, hne2⟩

theorem composeElement_extends (M : Measure) (xp : XPath) (nxp : NodeXPath)
    (ctx : Ctx) (el : Element) (ctx' : Ctx)
    (hne : ctx.pages ≠ []) (h : composeElement M xp nxp ctx el = .ok ctx') :
    pagesExtends ctx.pages ctx'.pages ∧ ctx'.pages ≠ [] := by
  cases el with
  | staticText e =>
    injection h with h'
    subst h'
    exact composeTextLine_extends M ctx e _ hne
  | dynamicText e =>
    replace h : Except.map (composeTextLine M ctx e) (evalString xp (e.binding.getD []))
        = .ok ctx' := h
    cases hv : evalString xp (e.binding.getD []) with
    | error err =>
      rw [hv] at h
      exact absurd h (by simp [Except.map])
    | ok v =>
      rw [hv] at h
      simp only [Except.map] at h
      injection h with h'
      subst h'
      exact composeTextLine_extends M ctx e v hne
  | textBox e =>
    replace h : (match (match e.text with
          | some t => Except.ok t
          | none => evalString xp (e.binding.getD [])) with
        | .error err => (Except.error err : Except Unit Ctx)
        | .ok value => Except.ok (composeTextBoxT M ctx e value).1) = .ok ctx' := h
    split at h
    · exact absurd h (by simp)
    · injection h with h'
      subst h'
      exact composeTextBoxT_extends M ctx e _ hne
  | image e =>
    injection h with h'
    subst h'
    exact composeImage_extends ctx e hne
  | rule e =>
    injection h with h'
    subst h'
    exact composeRule_extends ctx e hne
  | repeatingTable e =>
    replace h : composeRepeatingTable M xp nxp ctx e = .ok ctx' := h
    unfold composeRepeatingTable at h
    cases hr : composeRepeatingTableT M xp nxp ctx e with
    | error err =>
      rw [hr] at h
      exact absurd h (by simp [Except.map])
    | ok r =>
      rw [hr] at h
      simp only [Except.map] at h
      injection h with h'
      subst h'
      exact composeRepeatingTableT_extends M xp nxp ctx e r hne hr
  | other ty =>
    injection h with h'
    subst h'
    exact ⟨pagesExtends_refl _, hne⟩

theorem composeElements_extends (M : Measure) (xp : XPath) (nxp : NodeXPath) :
    ∀ (elements : List Element) (ctx ctx' : Ctx),
      ctx.pages ≠ [] → composeElements M xp nxp elements ctx = .ok ctx' →
      pagesExtends ctx.pages ctx'.pages ∧ ctx'.pages ≠ [] := by
  intro elements
  induction elements with
  | nil =>
    intro ctx ctx' hne h
    injection h with h'
    subst h'
    exact ⟨pagesExtends_refl _, hne⟩
  | cons el rest ih =>
    intro ctx ctx' hne h
    unfold composeElements at h
    split at h
    · exact absurd h (by simp)
    · rename_i c1 hc1
      obtain ⟨hext1, hne1⟩ := composeElement_extends M xp nxp ctx el c1 hne hc1
      obtain ⟨hext2, hne2⟩ := ih c1 ctx' hne1 h
      exact ⟨pagesExtends_trans hext1 hext2, hne2⟩

/-- **C9** (confirmed): composition is append-only over pages.  From any
context state (in particular any state reached mid-composition, since
the element loop is a fold of this very function), composing any list of
elements only ever appends: every page except the then-current one is
unchanged in the final page list, and the then-current page is extended
on the right — so once `new_page()` makes a page non-current, its op
sequence never changes for the rest of the `compose()` call. -/
theorem c9_pages_append_only (M : Measure) (xp : XPath) (nxp : NodeXPath)
    (elements : List Element) (ctx ctx' : Ctx)
    (hne : ctx.pages ≠ []) (h : composeElements M xp nxp elements ctx = .ok ctx') :
    pagesExtends ctx.pages ctx'.pages :=
  (composeElements_extends M xp nxp elements ctx ctx' hne h).1

/-- Witness for `c9_pages_append_only` at a concrete composition. -/
theorem c9_witness : pagesExtends ctx0.pages c9OutCtx.pages :=
  c9_pages_append_only Mchar xpRows2 nxpSelf [.staticText stPlain] ctx0 c9OutCtx
    (of_decide_eq_true (by with_unfolding_all rfl))
    (by with_unfolding_all rfl)

/-- **C10** counterexample: `compose` does *not* always return a page
list.  A template whose only element is a DynamicText bound to
`/r/node()` over the document `<r><c/>tail</r>` makes `eval_string`
raise (mixed node-set, see C7), and the error propagates out of
`compose`, so no pages are returned. -/
theorem c10_counterexample :
    compose Mchar xpMixed nxpSelf tmplMixed = .error () := by
  with_unfolding_all rfl

/-- **C10** (amended): whenever `compose` returns (i.e. no binding
evaluation raises — see C7 for the one way it can), the result contains
at least one page, because the page list starts as one empty page and
composition only ever appends; and an element of unrecognized type is a
silent no-op: it contributes no operations and no error. -/
theorem c10_amended :
    (∀ (M : Measure) (xp : XPath) (nxp : NodeXPath) (t : Template)
        (pages : List (List Op)),
      compose M xp nxp t = .ok pages → 1 ≤ pages.length) ∧
    (∀ (M : Measure) (xp : XPath) (nxp : NodeXPath) (ctx : Ctx) (ty : Option Str),
      composeElement M xp nxp ctx (.other ty) = .ok ctx) := by
  constructor
  · intro M xp nxp t pages h
    have key : ∀ (c : Ctx) (pages : List (List Op)), c.pages ≠ [] →
        (composeElements M xp nxp t.elements c).map (fun x => x.pages) = .ok pages →
        1 ≤ pages.length := by
      intro c pages hc hmap
      cases hx : composeElements M xp nxp t.elements c with
      | error err =>
        rw [hx] at hmap
        exact absurd hmap (by simp [Except.map])
      | ok c' =>
        rw [hx] at hmap
        simp only [Except.map] at hmap
        injection hmap with h'
        subst h'
        have hlen := (composeElements_extends M xp nxp t.elements c c' hc hx).1.1
        have hlc : 1 ≤ c.pages.length := List.length_pos.mpr hc
        omega
    unfold compose at h
    exact key _ pages (by unfold Ctx.init; simp) h
  · intro M xp nxp ctx ty
    rfl

/-- Witness for `c10_amended` at a concrete template of one unknown
element. -/
theorem c10_witness :
    1 ≤ unknownPages.length ∧
    composeElement Mchar xpRows2 nxpSelf ctx0 (.other (some "Banner".data)) = .ok ctx0 :=
  ⟨c10_amended.1 Mchar xpRows2 nxpSelf tmplUnknown unknownPages
    (by with_unfolding_all rfl),
   c10_amended.2 Mchar xpRows2 nxpSelf ctx0 (some "Banner".data)⟩

/-- **C5** (confirmed): no row is ever split across pages.  For every
RepeatingTable composition that returns, each source data row's cell ops
(recorded in the row's trace) appear contiguously inside a single page
of the resulting page list: the row's full height is computed from all
columns' wrapped content before anything is emitted, and on overflow the
whole row is emitted on the fresh page. -/
theorem c5_no_row_splitting (M : Measure) (xp : XPath) (nxp : NodeXPath)
    (ctx : Ctx) (e : TableE) (res : Ctx × List RowTrace)
    (hne : ctx.pages ≠ [])
    (h : composeRepeatingTableT M xp nxp ctx e = .ok res) :
    ∀ tr ∈ res.2, opsOnOnePage tr.ops res.1.pages := by
  unfold composeRepeatingTableT at h
  simp only [] at h
  by_cases hrows : evalNodes xp (e.binding.getD []) = []
  · rw [if_pos hrows] at h
    injection h with h'
    subst h'
    intro tr htr
    exact absurd htr (by simp)
  · rw [if_neg hrows] at h
    by_cases hcols : e.columns = []
    · rw [if_pos hcols] at h
      injection h with h'
      subst h'
      intro tr htr
      exact absurd htr (by simp)
    · rw [if_neg hcols] at h
      cases hr : renderRows M xp nxp (mkTableParams ctx e)
          (evalNodes xp (e.binding.getD []))
          (renderHeader ctx (mkTableParams ctx e))
          ((mkTableParams ctx e).yOrigin + (mkTableParams ctx e).headerLeading
            + (mkTableParams ctx e).headerGap) with
      | error err =>
        rw [hr] at h
        exact absurd h (by simp [Except.map])
      | ok r =>
        rw [hr] at h
        simp only [Except.map] at h
        injection h with h'
        subst h'
        have hneH : (renderHeader ctx (mkTableParams ctx e)).pages ≠ [] := by
          unfold renderHeader
          exact foldl_addOp_pages_ne_nil _ _ hne
        exact renderRows_traces M xp nxp (mkTableParams ctx e)
          (evalNodes xp (e.binding.getD [])) _ _ r hneH hr

/-- Witness for `c5_no_row_splitting` at the concrete two-page table
composition (`table4` over four rows). -/
theorem c5_witness :
    opsOnOnePage ((table4Res.2.headD ⟨[], false⟩).ops) table4Res.1.pages := by
  refine c5_no_row_splitting Mchar xpRows4 nxpSelf ctxTable table4 table4Res
    (of_decide_eq_true (by with_unfolding_all rfl))
    (by with_unfolding_all rfl)
    (table4Res.2.headD ⟨[], false⟩) ?_
  exact of_decide_eq_true (by with_unfolding_all rfl)

/-- **C6** (confirmed): the header row is emitted exactly once per page
the table's content spans — (a) the number of pages the table adds
equals the number of page-breaking rows, so the pages spanned are
`1 + breaks` and the header emissions are likewise one at the start plus
one per break; (b) on the starting page, the header ops are laid down
right where the table's output begins; (c) every page the table creates
begins with the header ops at the same origin. -/
theorem c6_header_per_page (M : Measure) (xp : XPath) (nxp : NodeXPath)
    (ctx : Ctx) (e : TableE) (res : Ctx × List RowTrace)
    (hne : ctx.pages ≠ [])
    (h : composeRepeatingTableT M xp nxp ctx e = .ok res)
    (hrows : evalNodes xp (e.binding.getD []) ≠ [])
    (hcols : e.columns ≠ []) :
    res.1.pages.length
      = ctx.pages.length + (res.2.filter (fun t => t.broke)).length ∧
    (∀ pl, ctx.pages[ctx.pages.length - 1]? = some pl →
      ∃ r, res.1.pages[ctx.pages.length - 1]?
        = some (pl ++ headerOps ctx (mkTableParams ctx e) ++ r)) ∧
    (∀ i, ctx.pages.length ≤ i → i < res.1.pages.length →
      ∃ r, res.1.pages[i]? = some (headerOps ctx (mkTableParams ctx e) ++ r)) := by
  unfold composeRepeatingTableT at h
  simp only [] at h
  rw [if_neg hrows, if_neg hcols] at h
  cases hr : renderRows M xp nxp (mkTableParams ctx e)
      (evalNodes xp (e.binding.getD []))
      (renderHeader ctx (mkTableParams ctx e))
      ((mkTableParams ctx e).yOrigin + (mkTableParams ctx e).headerLeading
        + (mkTableParams ctx e).headerGap) with
  | error err =>
    rw [hr] at h
    exact absurd h (by simp [Except.map])
  | ok r =>
    rw [hr] at h
    simp only [Except.map] at h
    injection h with h'
    subst h'
    have hHeq : renderHeader ctx (mkTableParams ctx e)
        = { ctx with pages := ctx.pages.dropLast
            ++ [ctx.curPage ++ headerOps ctx (mkTableParams ctx e)] } := by
      unfold renderHeader
      exact foldl_addOp_eq _ ctx hne
    have hHpages : (renderHeader ctx (mkTableParams ctx e)).pages
        = ctx.pages.dropLast ++ [ctx.curPage ++ headerOps ctx (mkTableParams ctx e)] := by
      rw [hHeq]
    have hneH : (renderHeader ctx (mkTableParams ctx e)).pages ≠ [] := by
      rw [hHpages]
      simp
    have hHlen : (renderHeader ctx (mkTableParams ctx e)).pages.length
        = ctx.pages.length := by
      rw [hHpages]
      have := List.length_pos.mpr hne
      simp only [List.length_append, List.length_dropLast, List.length_singleton]
      omega
    obtain ⟨hg, hlen, hearlier, hlast, hnew⟩ := renderRows_pages M xp nxp
      (mkTableParams ctx e) (evalNodes xp (e.binding.getD [])) _ _ r hneH hr
    have hHheader : headerOps (renderHeader ctx (mkTableParams ctx e))
        (mkTableParams ctx e) = headerOps ctx (mkTableParams ctx e) := by
      rw [hHeq, headerOps_pages_irrel]
    refine ⟨?_, ?_, ?_⟩
    · rw [hlen, hHlen]
    · intro pl hp
      have hcur : ctx.curPage = pl := by
        unfold Ctx.curPage
        rw [List.getLastD_eq_getLast?, List.getLast?_eq_getElem?, hp]
        rfl
      have hHlast : (renderHeader ctx (mkTableParams ctx e)).pages[ctx.pages.length - 1]?
          = some (pl ++ headerOps ctx (mkTableParams ctx e)) := by
        rw [hHpages, ← hcur]
        exact getElem?_concat_last _ _ hne
      obtain ⟨r2, hr2⟩ := hlast _ (by rw [hHlen]; exact hHlast)
      rw [hHlen] at hr2
      exact ⟨r2, by rw [hr2, List.append_assoc]⟩
    · intro i h1 h2
      obtain ⟨r2, hr2⟩ := hnew i (by rw [hHlen]; exact h1) h2
      rw [hHheader] at hr2
      exact ⟨r2, hr2⟩

/-- Witness for `c6_header_per_page` at the concrete two-page table
composition: the table adds one page (one breaking row among four). -/
theorem c6_witness :
    table4Res.1.pages.length
      = ctxTable.pages.length + ((table4Res.2.filter (fun t => t.broke)).length) :=
  (c6_header_per_page Mchar xpRows4 nxpSelf ctxTable table4 table4Res
    (of_decide_eq_true (by with_unfolding_all rfl))
    (by with_unfolding_all rfl)
    (of_decide_eq_true (by with_unfolding_all rfl))
    (of_decide_eq_true (by with_unfolding_all rfl))).1

end TemplateEngine
